import Mathlib

/-!
Verification development for the `dirtree` repository (a directory-tree
rendering utility consisting of `src/dirtree.py` and `src/ignore_pattrens.py`).

The Python code is shallowly embedded as executable Lean definitions:
  * string manipulation is modelled on `List Char` so that every definition
    is kernel-reducible (concrete runs can be checked by `decide`/`rfl`);
  * the filesystem is modelled by the inductive type `Entry` (a file, or a
    directory with an accessibility flag modelling permission errors on
    listing plus a list of children);
  * the recursive tree walk `generate_tree` is embedded with an explicit
    structural fuel parameter; the wrapper `generateTree` supplies `e.fuel`
    (one more than the entry count, always exceeding the nesting depth), and
    a fuel-irrelevance lemma is proved below;
  * every `print` of the walker is modelled as a structured `Line` carrying
    the printed components plus, as instrumentation, the traversal depth of
    the entry the line denotes; `render` produces the printed string.
-/

namespace Dirtree

/-! ### Character-list helpers (kernel-reducible models of the Python string
operations used by the source: `str.split`, `str.strip`, `str.startswith`,
`str.lower`, `int(...)`) -/

/-- Model of the Python `str.split(sep)` for a single-character separator
(also used for iterating over the lines of a file). -/
def splitOnChar (sep : Char) : List Char → List (List Char)
  | [] => [[]]
  | c :: cs =>
    match splitOnChar sep cs with
    | [] => [[c]]
    | h :: t => if c == sep then [] :: h :: t else (c :: h) :: t

/-- True when the first character of `s` is `c`; models Python
`s.startswith(c)` for a one-character argument (false on the empty string). -/
def firstCharIs (c : Char) (s : List Char) : Bool :=
  match s with
  | [] => false
  | d :: _ => d == c

/-- Model of Python `str.strip()`: drop leading and trailing whitespace.
`Char.isWhitespace` covers space, tab, CR and LF, which are the only
whitespace characters occurring in the data this repository handles. -/
def stripChars (s : List Char) : List Char :=
  ((s.dropWhile Char.isWhitespace).reverse.dropWhile Char.isWhitespace).reverse

/-- Digit accumulator underlying the model of Python `int(...)`. -/
def parseNatDigits : List Char → Nat → Option Nat
  | [], acc => some acc
  | c :: cs, acc =>
    if c.isDigit then parseNatDigits cs (acc * 10 + (c.toNat - 48)) else none

/-- Digit-string parser underlying the model of Python `int(...)`. -/
def parseNatChars : List Char → Option Nat
  | [] => none
  | cs => parseNatDigits cs 0

/-- Model of Python `int(s)` on the inputs relevant here: an optional sign
followed by decimal digits (Python additionally tolerates surrounding
whitespace and underscores, which never occur in the claims considered). -/
def parseIntChars : List Char → Option Int
  | [] => none
  | '-' :: ds => (parseNatChars ds).map (fun n => -(n : Int))
  | '+' :: ds => (parseNatChars ds).map (fun n => (n : Int))
  | ds => (parseNatChars ds).map (fun n => (n : Int))

/-! ### Shell-style glob matching (model of `fnmatch.fnmatch`)

Python `fnmatch.fnmatch` first normalises case via `os.path.normcase`, which
is the identity on POSIX, so the model is case-sensitive.  The pattern
grammar follows `fnmatch.translate`: `*` matches any character sequence, `?`
any single character, `[seq]` a character class (with `!` negation, ranges,
a leading `]` taken literally, and an unterminated `[` taken as a literal
character). -/

inductive GlobTok where
  | lit (c : Char)
  | anyOne
  | star
  | cls (neg : Bool) (ranges : List (Char × Char))

/-- Scan for the closing `]` of a character class, returning the class body
and the remainder of the pattern; `none` when the class is unterminated. -/
def splitAtRBracket : List Char → Option (List Char × List Char)
  | [] => none
  | c :: cs =>
    if c == ']' then some ([], cs)
    else
      match splitAtRBracket cs with
      | some (body, rest) => some (c :: body, rest)
      | none => none

/-- Interpret a character-class body: `a-b` denotes a range, any other
character denotes itself (a trailing `-` is literal, as in Python). -/
def parseRanges : List Char → List (Char × Char)
  | [] => []
  | a :: '-' :: b :: rest => (a, b) :: parseRanges rest
  | a :: rest => (a, a) :: parseRanges rest

/-- Tokenise a glob pattern.  The fuel is only needed because the class scan
consumes a non-structural amount of input; `parseGlob` supplies enough. -/
def parseGlobAux : Nat → List Char → List GlobTok
  | 0, _ => []
  | _ + 1, [] => []
  | fuel + 1, c :: ps =>
    if c == '*' then .star :: parseGlobAux fuel ps
    else if c == '?' then .anyOne :: parseGlobAux fuel ps
    else if c == '[' then
      let neg := firstCharIs '!' ps
      let ps1 := if neg then ps.tail else ps
      let lead : List Char := if firstCharIs ']' ps1 then [']'] else []
      let ps2 := if firstCharIs ']' ps1 then ps1.tail else ps1
      match splitAtRBracket ps2 with
      | some (body, rest) => .cls neg (parseRanges (lead ++ body)) :: parseGlobAux fuel rest
      | none => .lit '[' :: parseGlobAux fuel ps
    else .lit c :: parseGlobAux fuel ps

def parseGlob (pat : List Char) : List GlobTok :=
  parseGlobAux (pat.length + 1) pat

def charInRanges (ranges : List (Char × Char)) (c : Char) : Bool :=
  ranges.any (fun r => decide (r.1.toNat ≤ c.toNat) && decide (c.toNat ≤ r.2.toNat))

/-- Full-string glob matching over the token list.  Every recursive call
strictly decreases `toks.length + s.length`, so the fuel supplied by
`fnmatch` is always sufficient. -/
def globMatchAux : Nat → List GlobTok → List Char → Bool
  | 0, _, _ => false
  | fuel + 1, toks, s =>
    match toks, s with
    | [], [] => true
    | [], _ :: _ => false
    | .star :: ps, [] => globMatchAux fuel ps []
    | .star :: ps, c :: cs =>
      globMatchAux fuel ps (c :: cs) || globMatchAux fuel (.star :: ps) cs
    | .anyOne :: ps, _ :: cs => globMatchAux fuel ps cs
    | .anyOne :: _, [] => false
    | .lit a :: ps, c :: cs => a == c && globMatchAux fuel ps cs
    | .lit _ :: _, [] => false
    | .cls neg ranges :: ps, c :: cs =>
      (neg != charInRanges ranges c) && globMatchAux fuel ps cs
    | .cls _ _ :: _, [] => false

/-- Model of `fnmatch.fnmatch(name, pat)` (case-sensitive, as on POSIX). -/
def fnmatch (name pat : String) : Bool :=
  let toks := parseGlob pat.data
  globMatchAux (toks.length + name.data.length + 1) toks name.data

/-! ### The matcher (`DirectoryTreeGenerator.should_ignore`)

The Python method receives a `Path`; its two observable projections are the
bare name (`path.name`) and the full path string (`str(path)`), which the
model takes as separate arguments.  `self.ignore_patterns` is a Python set;
it is modelled as a list, and order-independence is proved as claim C2. -/

def should_ignore (show_hidden : Bool) (ignore_patterns : List String)
    (name path : String) : Bool :=
  if !show_hidden && firstCharIs '.' name.data then true
  else
    ignore_patterns.any (fun pat =>
      fnmatch name pat || name == pat || fnmatch path pat)

/-! ### The filesystem model

A directory entry is read live from the filesystem by the walker; the model
fixes one tree.  A directory carries an `accessible` flag: `false` models
`Path.iterdir` raising `PermissionError`. -/

inductive Entry where
  | file (name : String)
  | dir (name : String) (accessible : Bool) (children : List Entry)

def Entry.name : Entry → String
  | .file n => n
  | .dir n _ _ => n

/-! Fuel bound for the walker: one more than the number of entries in the
tree, which strictly exceeds its nesting depth. -/

mutual
def Entry.fuel : Entry → Nat
  | .file _ => 1
  | .dir _ _ cs => fuelList cs + 1
def fuelList : List Entry → Nat
  | [] => 0
  | c :: cs => Entry.fuel c + fuelList cs
end

/-- Model of `Path.is_file()` for the entries the walker inspects. -/
def Entry.is_file : Entry → Bool
  | .file _ => true
  | .dir _ _ _ => false

/-! ### Sibling ordering (`items.sort(key=lambda x: (x.is_file(), x.name.lower()))`)

Python sorts by the tuple key `(is_file, name.lower())`: directories
(`is_file = False`) before files, ties broken by the case-lowered name
compared by code points.  `list.sort` is a stable sort; the model uses
Mathlib insertion sort with the total preorder `childOrd`, which is also a
stable sort for that key, hence extensionally equal to the source sort. -/

/-- Code points of the case-lowered name (Python `name.lower()`; `Char.toLower`
agrees with Python on ASCII, the only characters appearing here). -/
def lowerKey (s : String) : List Nat :=
  s.data.map (fun c => c.toLower.toNat)

/-- Strict lexicographic order on code-point lists, as Python compares
strings. -/
def lexLt : List Nat → List Nat → Bool
  | [], [] => false
  | [], _ :: _ => true
  | _ :: _, [] => false
  | a :: as, b :: bs => decide (a < b) || (decide (a = b) && lexLt as bs)

def lexLe (a b : List Nat) : Bool := lexLt a b || a == b

/-- The sort key comparison: `is_file` first (directories before files),
then the lowered name. -/
def childLE (a b : Entry) : Bool :=
  (!a.is_file && b.is_file)
    || (a.is_file == b.is_file && lexLe (lowerKey a.name) (lowerKey b.name))

def childOrd (a b : Entry) : Prop := childLE a b = true

instance : DecidableRel childOrd := fun a b => Bool.decEq (childLE a b) true

/-! ### Configuration and rendered lines -/

/-- The generator state relevant to traversal, fixed before the walk
(`show_hidden`, `max_depth`, `ignore_patterns` of `DirectoryTreeGenerator`).
`max_depth` is an `Option Int` because the CLI accepts any integer. -/
structure Config where
  show_hidden : Bool
  max_depth : Option Int
  ignore_patterns : List String

/-- The guard `self.max_depth is not None and current_depth >= self.max_depth`
at the top of `generate_tree`. -/
def cutoff (cfg : Config) (current_depth : Nat) : Bool :=
  match cfg.max_depth with
  | some m => decide ((current_depth : Int) ≥ m)
  | none => false

/-- Listing, filtering and sorting of a directory entry, as performed by
`generate_tree`: `items = list(directory.iterdir())`, then the
`should_ignore` filter, then the sort.  The full path string of a child is
the parent path joined with `/`, as `str(Path)` produces on POSIX. -/
def processChildren (cfg : Config) (path : String) (children : List Entry) : List Entry :=
  List.insertionSort childOrd
    (children.filter (fun c =>
      !(should_ignore cfg.show_hidden cfg.ignore_patterns c.name (path ++ "/" ++ c.name))))

inductive LineKind where
  | entry
  | permDenied
  | errNotDir
deriving DecidableEq

/-- One `print` of the walker, in print order.  `pfx`, `conn` and `name` are
the printed components; `is_dir` records the trailing slash; `kind`
distinguishes entry lines from the permission-denied and not-a-directory
messages.  `depth` is instrumentation only: the traversal depth of the entry
this line denotes (the `current_depth` of the emitting call for an entry
line of a directory or the error line, `current_depth + 1` for a file child
or the permission-denied line, which are printed at the child level). -/
structure Line where
  pfx : String
  conn : String
  name : String
  is_dir : Bool
  depth : Nat
  kind : LineKind
deriving DecidableEq

/-- The glyph choice `"└── " if is_last else "├── "`. -/
def connector (is_last : Bool) : String :=
  if is_last then "└── " else "├── "

/-- The string a `Line` prints as. -/
def render (l : Line) : String :=
  match l.kind with
  | .errNotDir => "Error: " ++ l.name ++ " is not a directory."
  | _ => l.pfx ++ l.conn ++ l.name ++ (if l.is_dir then "/" else "")

/-- The name line of the visited directory itself: at the root no connector
and no indentation, below the root the connector chosen by `is_last`. -/
def selfLine (pfx : String) (is_last : Bool) (current_depth : Nat) (n : String) : Line :=
  if 0 < current_depth then ⟨pfx, connector is_last, n, true, current_depth, .entry⟩
  else ⟨"", "", n, true, current_depth, .entry⟩

/-- The prefix passed to the children: extended by four spaces or a bar
below the root (`prefix += "    " if is_last else "│   "`), unchanged at the
root. -/
def extendPfx (pfx : String) (is_last : Bool) (current_depth : Nat) : String :=
  if 0 < current_depth then pfx ++ (if is_last then "    " else "│   ") else pfx

def pdLine (pfx : String) (is_last : Bool) (depth : Nat) : Line :=
  ⟨pfx, connector is_last, "[Permission Denied]", false, depth, .permDenied⟩

def fileLine (pfx : String) (is_last : Bool) (depth : Nat) (n : String) : Line :=
  ⟨pfx, connector is_last, n, false, depth, .entry⟩

def errLine (path : String) (depth : Nat) : Line :=
  ⟨"", "", path, false, depth, .errNotDir⟩

/-- The `for i, item in enumerate(items)` loop: each child is handled with
`is_last_item` true exactly when `i == len(items) - 1`, i.e. when no items
remain after it. -/
def processList (h : Entry → Bool → List Line) : List Entry → List Line
  | [] => []
  | c :: rest => h c rest.isEmpty ++ processList h rest

/-- The recursive walker `DirectoryTreeGenerator.generate_tree`, with an
explicit structural fuel (decremented once per recursion level; the wrapper
`generateTree` supplies more fuel than the tree is deep, and fuel
irrelevance is proved below).  Faithful to the source order of effects:
depth guard first, then the existence/directory checks (a file argument
produces the not-a-directory error line; entries of the model always
exist), then the name line of the directory itself, then listing; a
permission failure of the listing emits the single permission-denied line
with the already-extended prefix and the connector of the directory
itself. -/
def generate_tree (cfg : Config) : Nat → Entry → String → String → Bool → Nat → List Line
  | 0, _, _, _, _, _ => []
  | fuel + 1, e, path, pfx, is_last, current_depth =>
    if cutoff cfg current_depth then []
    else
      match e with
      | .file _ => [errLine path current_depth]
      | .dir n accessible children =>
        selfLine pfx is_last current_depth n ::
          (if accessible then
            processList
              (fun item is_last_item =>
                match item with
                | .dir _ _ _ =>
                  generate_tree cfg fuel item (path ++ "/" ++ item.name)
                    (extendPfx pfx is_last current_depth) is_last_item (current_depth + 1)
                | .file fn =>
                  [fileLine (extendPfx pfx is_last current_depth) is_last_item
                    (current_depth + 1) fn])
              (processChildren cfg path children)
          else [pdLine (extendPfx pfx is_last current_depth) is_last (current_depth + 1)])

/-- The walker as invoked by the program: `generate_tree(target_path)` with
the default arguments `prefix=""`, `is_last=True`, `current_depth=0`. -/
def generateTree (cfg : Config) (e : Entry) (path : String) : List Line :=
  generate_tree cfg e.fuel e path ("") true 0

/-- The body of the child loop as a named function (definitionally the
lambda inside `generate_tree`), convenient for stating sibling-level
facts. -/
def walkChild (cfg : Config) (fuel : Nat) (path cp : String) (current_depth : Nat)
    (item : Entry) (is_last_item : Bool) : List Line :=
  match item with
  | .dir _ _ _ =>
    generate_tree cfg fuel item (path ++ "/" ++ item.name) cp is_last_item (current_depth + 1)
  | .file fn => [fileLine cp is_last_item (current_depth + 1) fn]

/-! ### Order properties of the sort key -/

lemma lexLt_trans : ∀ {a b c : List Nat},
    lexLt a b = true → lexLt b c = true → lexLt a c = true := by
  intro a
  induction a with
  | nil =>
    intro b c hab hbc
    cases b <;> cases c <;> simp_all [lexLt]
  | cons x as ih =>
    intro b c hab hbc
    cases b with
    | nil => simp [lexLt] at hab
    | cons y bs =>
      cases c with
      | nil => simp [lexLt] at hbc
      | cons z cs =>
        simp only [lexLt, Bool.or_eq_true, Bool.and_eq_true, decide_eq_true_eq] at hab hbc ⊢
        rcases hab with h1 | ⟨he1, h1⟩ <;> rcases hbc with h2 | ⟨he2, h2⟩
        · exact Or.inl (by omega)
        · exact Or.inl (by omega)
        · exact Or.inl (by omega)
        · exact Or.inr ⟨by omega, ih h1 h2⟩

lemma lexLt_connex : ∀ {a b : List Nat},
    lexLt a b = false → lexLt b a = true ∨ a = b := by
  intro a
  induction a with
  | nil =>
    intro b h
    cases b with
    | nil => exact Or.inr rfl
    | cons y bs => simp [lexLt] at h
  | cons x as ih =>
    intro b h
    cases b with
    | nil => simp [lexLt]
    | cons y bs =>
      simp only [lexLt, Bool.or_eq_false_iff, Bool.and_eq_false_iff,
        decide_eq_false_iff_not] at h
      rcases h with ⟨hxy, h2⟩
      by_cases hxe : x = y
      · subst hxe
        rcases h2 with h2 | h2
        · simp at h2
        · rcases ih h2 with h3 | h3
          · exact Or.inl (by simp [lexLt, h3])
          · exact Or.inr (by rw [h3])
      · have : y < x := by omega
        exact Or.inl (by simp [lexLt, this])

lemma lexLe_trans {a b c : List Nat} (hab : lexLe a b = true) (hbc : lexLe b c = true) :
    lexLe a c = true := by
  simp only [lexLe, Bool.or_eq_true, beq_iff_eq] at hab hbc ⊢
  rcases hab with h1 | h1 <;> rcases hbc with h2 | h2
  · exact Or.inl (lexLt_trans h1 h2)
  · subst h2; exact Or.inl h1
  · subst h1; exact Or.inl h2
  · subst h1; exact Or.inr h2

lemma lexLe_total (a b : List Nat) : lexLe a b = true ∨ lexLe b a = true := by
  by_cases h : lexLt a b = true
  · exact Or.inl (by simp [lexLe, h])
  · rcases lexLt_connex (by simpa using h) with h2 | h2
    · exact Or.inr (by simp [lexLe, h2])
    · exact Or.inl (by simp [lexLe, h2])

lemma childLE_total (a b : Entry) : childLE a b = true ∨ childLE b a = true := by
  cases ha : a.is_file <;> cases hb : b.is_file <;>
    simp only [childLE, ha, hb, Bool.not_true, Bool.not_false, Bool.true_and,
      Bool.false_and, Bool.and_true, Bool.and_false, beq_self_eq_true,
      Bool.true_or, Bool.false_or, Bool.or_true, Bool.or_false]
  · exact lexLe_total _ _
  · simp
  · simp
  · exact lexLe_total _ _

lemma childLE_trans (a b c : Entry) (hab : childLE a b = true) (hbc : childLE b c = true) :
    childLE a c = true := by
  cases ha : a.is_file <;> cases hb : b.is_file <;> cases hc : c.is_file <;>
    simp only [childLE, ha, hb, hc, Bool.not_true, Bool.not_false, Bool.true_and,
      Bool.false_and, Bool.and_true, Bool.and_false, beq_self_eq_true,
      Bool.true_or, Bool.false_or, Bool.or_true, Bool.or_false] at hab hbc ⊢ <;>
    first
      | rfl
      | exact lexLe_trans hab hbc
      | simp_all

instance : IsTotal Entry childOrd := ⟨childLE_total⟩

instance : IsTrans Entry childOrd := ⟨childLE_trans⟩

/-! ### Basic lemmas about the walker components -/

lemma mem_processChildren {cfg : Config} {path : String} {children : List Entry} {c : Entry}
    (h : c ∈ processChildren cfg path children) :
    c ∈ children ∧
      should_ignore cfg.show_hidden cfg.ignore_patterns c.name (path ++ "/" ++ c.name) = false := by
  unfold processChildren at h
  rw [List.mem_insertionSort, List.mem_filter] at h
  exact ⟨h.1, by simpa using h.2⟩

lemma fuel_pos (e : Entry) : 1 ≤ e.fuel := by
  cases e <;> simp [Entry.fuel]

lemma fuel_mem_le {c : Entry} : ∀ {cs : List Entry}, c ∈ cs → c.fuel ≤ fuelList cs := by
  intro cs
  induction cs with
  | nil => intro h; cases h
  | cons x xs ih =>
    intro h
    rcases List.mem_cons.mp h with h | h
    · subst h; simp [fuelList]
    · have := ih h; simp [fuelList]; omega

lemma processList_congr {h1 h2 : Entry → Bool → List Line} :
    ∀ {l : List Entry}, (∀ c ∈ l, ∀ b, h1 c b = h2 c b) →
      processList h1 l = processList h2 l := by
  intro l
  induction l with
  | nil => intro _; rfl
  | cons c rest ih =>
    intro H
    simp only [processList]
    rw [H c (List.mem_cons_self c rest) rest.isEmpty,
      ih (fun x hx b => H x (List.mem_cons_of_mem c hx) b)]

lemma mem_processList {h : Entry → Bool → List Line} {l : Line} :
    ∀ {items : List Entry}, l ∈ processList h items → ∃ c ∈ items, ∃ b, l ∈ h c b := by
  intro items
  induction items with
  | nil => intro hl; cases hl
  | cons c rest ih =>
    intro hl
    rcases List.mem_append.mp hl with hl | hl
    · exact ⟨c, List.mem_cons_self c rest, rest.isEmpty, hl⟩
    · rcases ih hl with ⟨d, hd, b, hb⟩
      exact ⟨d, List.mem_cons_of_mem c hd, b, hb⟩

/-- The walker output does not depend on the fuel as long as the fuel
exceeds the entry count of the tree (in particular, the wrapper fuel is
irrelevant slack): the walker is a total function of the tree. -/
lemma generate_tree_fuel_congr (cfg : Config) :
    ∀ (f g : Nat) (e : Entry) (path pfx : String) (il : Bool) (d : Nat),
      e.fuel ≤ f → e.fuel ≤ g →
      generate_tree cfg f e path pfx il d = generate_tree cfg g e path pfx il d := by
  intro f
  induction f with
  | zero =>
    intro g e path pfx il d hf hg
    have := fuel_pos e
    omega
  | succ f ih =>
    intro g e path pfx il d hf hg
    cases g with
    | zero =>
      have := fuel_pos e
      omega
    | succ g =>
      cases e with
      | file fn => simp [generate_tree]
      | dir n acc cs =>
        simp only [generate_tree]
        by_cases hcut : cutoff cfg d = true
        · simp [hcut]
        · simp only [hcut, if_false, Bool.false_eq_true]
          congr 1
          cases acc with
          | false => rfl
          | true =>
            simp only [if_true]
            apply processList_congr
            intro c hc b
            cases c with
            | file fn2 => rfl
            | dir m a2 cs2 =>
              have hmem := (mem_processChildren hc).1
              have hle := fuel_mem_le hmem
              have hf2 : (Entry.dir m a2 cs2).fuel ≤ f := by
                simp only [Entry.fuel] at hf
                omega
              have hg2 : (Entry.dir m a2 cs2).fuel ≤ g := by
                simp only [Entry.fuel] at hg
                omega
              exact ih g (Entry.dir m a2 cs2) _ _ b (d + 1) hf2 hg2

/-- The wrapper equals the fueled walker at any sufficient fuel. -/
lemma generateTree_eq_fuel (cfg : Config) (e : Entry) (path : String) (f : Nat)
    (hf : e.fuel ≤ f) :
    generateTree cfg e path = generate_tree cfg f e path ("") true 0 :=
  generate_tree_fuel_congr cfg e.fuel f e path ("") true 0 (Nat.le_refl _) hf

/-! ### Unfolding lemmas for the walker -/

lemma generate_tree_cutoff {cfg : Config} {d : Nat} (h : cutoff cfg d = true)
    (f : Nat) (e : Entry) (path pfx : String) (il : Bool) :
    generate_tree cfg f e path pfx il d = [] := by
  cases f with
  | zero => rfl
  | succ f => simp [generate_tree, h]

lemma generate_tree_file {cfg : Config} {d : Nat} (h : cutoff cfg d = false)
    (f : Nat) (fn : String) (path pfx : String) (il : Bool) :
    generate_tree cfg (f + 1) (.file fn) path pfx il d = [errLine path d] := by
  simp [generate_tree, h]

lemma generate_tree_dir_inacc {cfg : Config} {d : Nat} (h : cutoff cfg d = false)
    (f : Nat) (n : String) (cs : List Entry) (path pfx : String) (il : Bool) :
    generate_tree cfg (f + 1) (.dir n false cs) path pfx il d =
      [selfLine pfx il d n, pdLine (extendPfx pfx il d) il (d + 1)] := by
  simp [generate_tree, h]

lemma generate_tree_dir_acc {cfg : Config} {d : Nat} (h : cutoff cfg d = false)
    (f : Nat) (n : String) (cs : List Entry) (path pfx : String) (il : Bool) :
    generate_tree cfg (f + 1) (.dir n true cs) path pfx il d =
      selfLine pfx il d n ::
        processList (walkChild cfg f path (extendPfx pfx il d) d)
          (processChildren cfg path cs) := by
  simp only [generate_tree, h, Bool.false_eq_true, if_false, if_true]
  rfl

lemma pdLine_depth (pfx : String) (il : Bool) (d : Nat) : (pdLine pfx il d).depth = d := rfl

lemma fileLine_depth (pfx : String) (il : Bool) (d : Nat) (n : String) :
    (fileLine pfx il d n).depth = d := rfl

lemma selfLine_depth (pfx : String) (il : Bool) (d : Nat) (n : String) :
    (selfLine pfx il d n).depth = d := by
  simp only [selfLine]
  split <;> rfl

lemma selfLine_kind (pfx : String) (il : Bool) (d : Nat) (n : String) :
    (selfLine pfx il d n).kind = .entry := by
  simp only [selfLine]
  split <;> rfl

lemma selfLine_name (pfx : String) (il : Bool) (d : Nat) (n : String) :
    (selfLine pfx il d n).name = n := by
  simp only [selfLine]
  split <;> rfl

lemma selfLine_is_dir (pfx : String) (il : Bool) (d : Nat) (n : String) :
    (selfLine pfx il d n).is_dir = true := by
  simp only [selfLine]
  split <;> rfl

/-- Every line emitted by a call at depth `d` denotes an entry at depth at
least `d`. -/
lemma mem_depth_ge (cfg : Config) :
    ∀ (f : Nat) (e : Entry) (path pfx : String) (il : Bool) (d : Nat) (l : Line),
      l ∈ generate_tree cfg f e path pfx il d → d ≤ l.depth := by
  intro f
  induction f with
  | zero => intro e path pfx il d l hl; cases hl
  | succ f ih =>
    intro e path pfx il d l hl
    by_cases hcut : cutoff cfg d = true
    · rw [generate_tree_cutoff hcut] at hl; cases hl
    · have hcut' : cutoff cfg d = false := by simpa using hcut
      cases e with
      | file fn =>
        rw [generate_tree_file hcut'] at hl
        simp only [List.mem_singleton] at hl
        subst hl; exact Nat.le_refl d
      | dir n acc cs =>
        cases acc with
        | false =>
          rw [generate_tree_dir_inacc hcut'] at hl
          rcases List.mem_cons.mp hl with hl | hl
          · subst hl; rw [selfLine_depth]
          · simp only [List.mem_singleton] at hl
            subst hl; exact Nat.le_succ d
        | true =>
          rw [generate_tree_dir_acc hcut'] at hl
          rcases List.mem_cons.mp hl with hl | hl
          · subst hl; rw [selfLine_depth]
          · rcases mem_processList hl with ⟨c, _, b, hb⟩
            cases c with
            | file fn =>
              simp only [walkChild, List.mem_singleton] at hb
              subst hb; exact Nat.le_succ d
            | dir m a2 cs2 =>
              have := ih (Entry.dir m a2 cs2) _ _ b (d + 1) l hb
              omega

/-- An entry line emitted at exactly the depth of the call is the name line
of the visited entry itself. -/
lemma mem_depth_eq_name (cfg : Config) :
    ∀ (f : Nat) (e : Entry) (path pfx : String) (il : Bool) (d : Nat) (l : Line),
      l ∈ generate_tree cfg f e path pfx il d → l.kind = .entry → l.depth = d →
      l.name = e.name := by
  intro f
  induction f with
  | zero => intro e path pfx il d l hl; cases hl
  | succ f ih =>
    intro e path pfx il d l hl hk hd
    by_cases hcut : cutoff cfg d = true
    · rw [generate_tree_cutoff hcut] at hl; cases hl
    · have hcut' : cutoff cfg d = false := by simpa using hcut
      cases e with
      | file fn =>
        rw [generate_tree_file hcut'] at hl
        simp only [List.mem_singleton] at hl
        subst hl; cases hk
      | dir n acc cs =>
        cases acc with
        | false =>
          rw [generate_tree_dir_inacc hcut'] at hl
          rcases List.mem_cons.mp hl with hl | hl
          · subst hl; exact selfLine_name _ _ _ _
          · simp only [List.mem_singleton] at hl
            subst hl; cases hk
        | true =>
          rw [generate_tree_dir_acc hcut'] at hl
          rcases List.mem_cons.mp hl with hl | hl
          · subst hl; exact selfLine_name _ _ _ _
          · rcases mem_processList hl with ⟨c, _, b, hb⟩
            cases c with
            | file fn =>
              simp only [walkChild, List.mem_singleton] at hb
              subst hb
              simp only [fileLine] at hd
              omega
            | dir m a2 cs2 =>
              have := mem_depth_ge cfg f (Entry.dir m a2 cs2) _ _ b (d + 1) l hb
              omega

/-- If an entry is not ignored while hidden entries are being hidden, its
name does not start with a dot. -/
lemma not_dotted_of_not_ignored {pats : List String} {name path : String}
    (h : should_ignore false pats name path = false) :
    firstCharIs '.' name.data = false := by
  cases hd : firstCharIs '.' name.data with
  | false => rfl
  | true => simp [should_ignore, hd] at h

/-- Hidden-name invariant of the walker: when `show_hidden` is false, every
entry line strictly below the depth of the call (i.e. every line of a
*child* entry, which went through the `should_ignore` filter) has a name
not starting with a dot. -/
lemma mem_not_dotted (cfg : Config) (hsh : cfg.show_hidden = false) :
    ∀ (f : Nat) (e : Entry) (path pfx : String) (il : Bool) (d : Nat) (l : Line),
      l ∈ generate_tree cfg f e path pfx il d → l.kind = .entry → d < l.depth →
      firstCharIs '.' l.name.data = false := by
  intro f
  induction f with
  | zero => intro e path pfx il d l hl; cases hl
  | succ f ih =>
    intro e path pfx il d l hl hk hd
    by_cases hcut : cutoff cfg d = true
    · rw [generate_tree_cutoff hcut] at hl; cases hl
    · have hcut' : cutoff cfg d = false := by simpa using hcut
      cases e with
      | file fn =>
        rw [generate_tree_file hcut'] at hl
        simp only [List.mem_singleton] at hl
        subst hl; cases hk
      | dir n acc cs =>
        cases acc with
        | false =>
          rw [generate_tree_dir_inacc hcut'] at hl
          rcases List.mem_cons.mp hl with hl | hl
          · subst hl
            rw [selfLine_depth] at hd
            omega
          · simp only [List.mem_singleton] at hl
            subst hl; cases hk
        | true =>
          rw [generate_tree_dir_acc hcut'] at hl
          rcases List.mem_cons.mp hl with hl | hl
          · subst hl
            rw [selfLine_depth] at hd
            omega
          · rcases mem_processList hl with ⟨c, hc, b, hb⟩
            have hig := (mem_processChildren hc).2
            rw [hsh] at hig
            cases c with
            | file fn =>
              simp only [walkChild, List.mem_singleton] at hb
              subst hb
              exact not_dotted_of_not_ignored hig
            | dir m a2 cs2 =>
              by_cases hdeep : d + 1 < l.depth
              · exact ih (Entry.dir m a2 cs2) _ _ b (d + 1) l hb hk hdeep
              · have hge := mem_depth_ge cfg f (Entry.dir m a2 cs2) _ _ b (d + 1) l hb
                have hdeq : l.depth = d + 1 := by omega
                have hname := mem_depth_eq_name cfg f (Entry.dir m a2 cs2) _ _ b (d + 1) l hb hk hdeq
                rw [hname]
                exact not_dotted_of_not_ignored hig

lemma cutoff_false_lt {cfg : Config} {d : Nat} {N : Int}
    (hN : cfg.max_depth = some N) (h : cutoff cfg d = false) : (d : Int) < N := by
  simp only [cutoff, hN, decide_eq_false_iff_not, ge_iff_le, not_le] at h
  exact h

/-- Depth-limit invariant of the walker: with `max_depth = N`, every emitted
line denotes an entry at depth at most `N`, and every directory name line
an entry at depth strictly below `N`. -/
lemma mem_depth_le_max (cfg : Config) {N : Int} (hN : cfg.max_depth = some N) :
    ∀ (f : Nat) (e : Entry) (path pfx : String) (il : Bool) (d : Nat) (l : Line),
      l ∈ generate_tree cfg f e path pfx il d →
      (l.depth : Int) ≤ N ∧ (l.is_dir = true → (l.depth : Int) < N) := by
  intro f
  induction f with
  | zero => intro e path pfx il d l hl; cases hl
  | succ f ih =>
    intro e path pfx il d l hl
    by_cases hcut : cutoff cfg d = true
    · rw [generate_tree_cutoff hcut] at hl; cases hl
    · have hcut' : cutoff cfg d = false := by simpa using hcut
      have hdN : (d : Int) < N := cutoff_false_lt hN hcut'
      cases e with
      | file fn =>
        rw [generate_tree_file hcut'] at hl
        simp only [List.mem_singleton] at hl
        subst hl
        refine ⟨by exact_mod_cast Int.le_of_lt hdN, ?_⟩
        intro h
        cases h
      | dir n acc cs =>
        cases acc with
        | false =>
          rw [generate_tree_dir_inacc hcut'] at hl
          rcases List.mem_cons.mp hl with hl | hl
          · subst hl
            rw [selfLine_depth]
            exact ⟨Int.le_of_lt hdN, fun _ => hdN⟩
          · simp only [List.mem_singleton] at hl
            subst hl
            rw [pdLine_depth]
            refine ⟨by push_cast; omega, ?_⟩
            intro h
            cases h
        | true =>
          rw [generate_tree_dir_acc hcut'] at hl
          rcases List.mem_cons.mp hl with hl | hl
          · subst hl
            rw [selfLine_depth]
            refine ⟨Int.le_of_lt hdN, ?_⟩
            intro _
            exact hdN
          · rcases mem_processList hl with ⟨c, _, b, hb⟩
            cases c with
            | file fn =>
              simp only [walkChild, List.mem_singleton] at hb
              subst hb
              rw [fileLine_depth]
              refine ⟨by push_cast; omega, ?_⟩
              intro h
              cases h
            | dir m a2 cs2 =>
              exact ih (Entry.dir m a2 cs2) _ _ b (d + 1) l hb

/-! ### The pattern catalog (`src/ignore_pattrens.py`)

Python sets of strings are modelled as lists; only membership matters.
NOTE: `dirtree.py` executes `from ignore_patterns import ...`, but the
module file on disk is named `ignore_pattrens.py`, so that import raises
`ImportError` at runtime and the fallback definitions below are the ones the
program actually uses; the catalog module itself is embedded faithfully
here. -/

namespace ignore_pattrens

def DEPENDENCIES : List String :=
  ["node_modules", "__pycache__", ".venv", "venv", "env", "vendor",
   "bower_components", ".yarn", ".pnpm-store", "Packages", "node_modules.nosync"]

def BUILD_OUTPUTS : List String :=
  ["dist", "build", "out", ".next", ".nuxt", ".docusaurus", "target", "bin",
   "obj", "Debug", "Release", ".output"]

def VERSION_CONTROL : List String :=
  [".git", ".svn", ".hg", ".bzr", "CVS"]

def IDE_EDITOR : List String :=
  [".vscode", ".idea", "*.swp", "*.swo", "*~", ".project", ".classpath",
   ".settings", "*.iml", ".vs", "*.suo", "*.user"]

def OS_FILES : List String :=
  [".DS_Store", ".DS_Store?", "._*", ".Spotlight-V100", ".Trashes",
   "ehthumbs.db", "Thumbs.db", "desktop.ini", "$RECYCLE.BIN"]

def TEMP_CACHE : List String :=
  ["*.tmp", "*.temp", ".cache", "tmp", "temp", ".sass-cache", ".eslintcache",
   ".parcel-cache", ".webpack", ".turbo"]

def LOGS : List String :=
  ["*.log", "logs", "npm-debug.log*", "yarn-debug.log*", "yarn-error.log*",
   "lerna-debug.log*", ".pnpm-debug.log*"]

def TESTING_COVERAGE : List String :=
  ["coverage", ".coverage", ".coverage.*", ".nyc_output", "htmlcov",
   ".pytest_cache", ".tox", "junit.xml", ".karma", "__snapshots__"]

def DATABASES : List String :=
  ["*.sqlite", "*.sqlite3", "*.db", "*.sqlite-journal"]

def COMPILED : List String :=
  ["*.pyc", "*.pyo", "*.class", "*.o", "*.obj", "*.so", "*.dll", "*.jar",
   "*.war", "*.ear", "*.exe"]

def ENVIRONMENT : List String :=
  [".env", ".env.local", ".env.development.local", ".env.test.local",
   ".env.production.local", ".env.*.local", "config.json", "secrets.json",
   ".secrets"]

def DOCS : List String :=
  ["docs/_build", "site", "_site", ".docz"]

/-- Every member of `LOCK_FILES` in the source is commented out. -/
def LOCK_FILES : List String := []

def DEFAULT_IGNORE_PATTERNS : List String :=
  DEPENDENCIES ++ BUILD_OUTPUTS ++ VERSION_CONTROL ++ IDE_EDITOR ++ OS_FILES ++
    TEMP_CACHE ++ LOGS ++ TESTING_COVERAGE ++ DATABASES ++ COMPILED ++
    ENVIRONMENT ++ DOCS ++ LOCK_FILES

def MINIMAL_PATTERNS : List String :=
  DEPENDENCIES ++ VERSION_CONTROL ++ OS_FILES

def AGGRESSIVE_PATTERNS : List String :=
  DEFAULT_IGNORE_PATTERNS ++ ["*.min.js", "*.min.css", "*.map", "public/assets"]

def category_map (c : String) : Option (List String) :=
  if c == "deps" then some DEPENDENCIES
  else if c == "build" then some BUILD_OUTPUTS
  else if c == "vcs" then some VERSION_CONTROL
  else if c == "ide" then some IDE_EDITOR
  else if c == "os" then some OS_FILES
  else if c == "temp" then some TEMP_CACHE
  else if c == "logs" then some LOGS
  else if c == "test" then some TESTING_COVERAGE
  else if c == "db" then some DATABASES
  else if c == "compiled" then some COMPILED
  else if c == "env" then some ENVIRONMENT
  else if c == "docs" then some DOCS
  else none

/-- `get_patterns_by_category(categories=None)`: `None` or an empty list
(both falsy in Python) yield the full default set; otherwise the union of
the recognised categories, unknown keys skipped. -/
def get_patterns_by_category : Option (List String) → List String
  | none => DEFAULT_IGNORE_PATTERNS
  | some [] => DEFAULT_IGNORE_PATTERNS
  | some (c :: cs) =>
    (c :: cs).foldl
      (fun acc cat =>
        match category_map cat with
        | some ps => acc ++ ps
        | none => acc)
      []

end ignore_pattrens

/-! ### The fallback definitions in `src/dirtree.py` (lines 27-40)

These are the definitions actually bound at runtime, because the `try`
block importing the (misnamed) patterns module always fails. -/

namespace fallback

def DEFAULT_IGNORE_PATTERNS : List String :=
  ["node_modules", "__pycache__", ".venv", "venv", ".git", "dist", "build",
   ".next", ".idea", ".vscode", "*.log"]

def MINIMAL_PATTERNS : List String :=
  ["node_modules", "__pycache__", ".git"]

def AGGRESSIVE_PATTERNS : List String := DEFAULT_IGNORE_PATTERNS

/-- The fallback `get_patterns_by_category` ignores its argument entirely. -/
def get_patterns_by_category (_categories : Option (List String)) : List String :=
  DEFAULT_IGNORE_PATTERNS

end fallback

/-! ### The ignore-file loader (`DirectoryTreeGenerator.load_ignore_file`) -/

/-- Outcome of opening the ignore file: present with the given text, or
absent (`FileNotFoundError`, which the source swallows). -/
inductive FileRead where
  | found (content : String)
  | missing

/-- The line loop of `load_ignore_file`: iterate over the lines, strip each,
keep the stripped line as a pattern unless it is empty or starts with `#`. -/
def parseIgnoreLines (content : String) : List String :=
  (((splitOnChar '\n' content.data).map stripChars).filter
    (fun l => !l.isEmpty && !(firstCharIs '#' l))).map (fun l => String.mk l)

/-- `load_ignore_file` adds the parsed patterns to the generator state; a
missing file adds nothing and raises nothing. -/
def load_ignore_file (ignore_patterns : List String) : FileRead → List String
  | .missing => ignore_patterns
  | .found c => ignore_patterns ++ parseIgnoreLines c

/-! ### The template ignore file (`create_default_ignore_file`) -/

/-- The exact text written by `create_default_ignore_file` (the Python
triple-quoted `ignore_content`, including the trailing newline). -/
def ignore_content : String :=
  "# Directory Tree Generator Ignore File\n" ++
  "# Lines starting with # are comments\n" ++
  "# Supports glob patterns like *.log, temp*, etc.\n" ++
  "\n" ++
  "# Dependencies\n" ++
  "node_modules\n" ++
  "__pycache__\n" ++
  ".venv\n" ++
  "venv\n" ++
  "env\n" ++
  "vendor\n" ++
  "bower_components\n" ++
  "\n" ++
  "# Build outputs\n" ++
  "dist\n" ++
  "build\n" ++
  "out\n" ++
  ".next\n" ++
  ".nuxt\n" ++
  "target\n" ++
  "bin\n" ++
  "obj\n" ++
  "\n" ++
  "# Version control\n" ++
  ".git\n" ++
  ".svn\n" ++
  ".hg\n" ++
  "\n" ++
  "# IDE/Editor files\n" ++
  ".vscode\n" ++
  ".idea\n" ++
  "*.swp\n" ++
  "*.swo\n" ++
  "*~\n" ++
  "\n" ++
  "# OS files\n" ++
  ".DS_Store\n" ++
  "Thumbs.db\n" ++
  "desktop.ini\n" ++
  "\n" ++
  "# Temporary files\n" ++
  "*.tmp\n" ++
  "*.temp\n" ++
  ".cache\n" ++
  "tmp\n" ++
  "temp\n" ++
  "\n" ++
  "# Logs\n" ++
  "*.log\n" ++
  "logs\n" ++
  "\n" ++
  "# Coverage/Test outputs\n" ++
  "coverage\n" ++
  ".coverage\n" ++
  ".nyc_output\n" ++
  "htmlcov\n" ++
  ".pytest_cache\n" ++
  ".tox\n"

/-! ### CLI depth argument (`main`, the `--depth=` branch) -/

/-- Model of `int(arg.split("=")[1])` for a `--depth=...` argument: `none`
models `ValueError` (the reported configuration error); `some d` means the
run proceeds with `max_depth = d`. -/
def parse_depth_arg (arg : String) : Option Int :=
  match (splitOnChar '=' arg.data)[1]? with
  | some v => parseIntChars v
  | none => none

/-! ### Claims -/

/-- C2 (confirmed): for every entry name, full path string, ignore set and
`show_hidden` flag, `should_ignore` returns true iff (a) `show_hidden` is
false and the bare name starts with a dot, or (b) some rule glob-matches the
bare name, exactly equals the bare name, or glob-matches the full path
string; hence the result is invariant under reordering of the rules, and
when neither (a) nor (b) holds the entry is not ignored. -/
theorem claim_C2 (sh : Bool) (pats : List String) (name path : String) :
    (should_ignore sh pats name path = true ↔
      ((sh = false ∧ firstCharIs '.' name.data = true) ∨
        ∃ pat ∈ pats,
          fnmatch name pat = true ∨ name = pat ∨ fnmatch path pat = true)) ∧
    (∀ pats2 : List String, pats.Perm pats2 →
      should_ignore sh pats name path = should_ignore sh pats2 name path) := by
  constructor
  · unfold should_ignore
    cases sh with
    | false =>
      cases hd : firstCharIs '.' name.data with
      | true => simp [hd]
      | false => simp [hd, List.any_eq_true, or_assoc]
    | true => simp [List.any_eq_true, or_assoc]
  · intro pats2 hperm
    unfold should_ignore
    have h2 : ∀ F : String → Bool, pats.any F = pats2.any F := by
      intro F
      rw [Bool.eq_iff_iff]
      simp only [List.any_eq_true]
      constructor
      · rintro ⟨x, hx, hFx⟩
        exact ⟨x, hperm.mem_iff.mp hx, hFx⟩
      · rintro ⟨x, hx, hFx⟩
        exact ⟨x, hperm.mem_iff.mpr hx, hFx⟩
    split
    · rfl
    · exact h2 _

/-- C2 witness: the matcher result is unchanged when the two rules of a
concrete set are swapped. -/
theorem claim_C2_witness :
    should_ignore false ["node_modules", "*.log"] "app.log" "/p/app.log" =
      should_ignore false ["*.log", "node_modules"] "app.log" "/p/app.log" :=
  (claim_C2 false (["node_modules", "*.log"]) ("app.log") ("/p/app.log")).2
    (["*.log", "node_modules"]) (List.Perm.swap ("*.log") ("node_modules") [])

/-- C3 counterexample: the claim says a dotted entry never appears in walker
output with `show_hidden = false`, but the traversal root is exempt from
filtering: invoking the walker on a directory named `.git` prints its name
line even though the name starts with a dot and the pattern set is empty. -/
theorem claim_C3_counterexample :
    firstCharIs '.' (Entry.dir (".git") true []).name.data = true ∧
    generateTree ⟨false, none, []⟩ (.dir (".git") true []) "/x/.git" =
      [⟨"", "", ".git", true, 0, .entry⟩] :=
  ⟨by decide, by decide⟩

/-- C3 (amended, corrected): with `show_hidden = false` every entry whose
bare name starts with a dot is ignored by the matcher regardless of the
pattern set, and no such entry appears in walker output *below the root*;
the traversal root itself is exempt from filtering, so a hidden root
directory still prints its own name line. -/
theorem claim_C3 :
    (∀ (pats : List String) (name path : String),
      firstCharIs '.' name.data = true → should_ignore false pats name path = true) ∧
    (∀ (cfg : Config) (e : Entry) (path : String),
      cfg.show_hidden = false →
      ∀ l ∈ generateTree cfg e path, l.kind = .entry → 0 < l.depth →
        firstCharIs '.' l.name.data = false) := by
  constructor
  · intro pats name path h
    simp [should_ignore, h]
  · intro cfg e path hsh l hl hk hd
    exact mem_not_dotted cfg hsh e.fuel e path ("") true 0 l hl hk hd

/-- C3 witness: a dotted name is ignored by the matcher even with an empty
pattern set, and a concrete non-root output line has an undotted name. -/
theorem claim_C3_witness :
    should_ignore false [] ".env" "/p/.env" = true ∧
    firstCharIs '.' (Line.mk ("") ("└── ") ("a.txt") false 1 .entry).name.data = false :=
  ⟨claim_C3.1 [] (".env") ("/p/.env") (by decide),
   claim_C3.2 ⟨false, none, []⟩ (.dir ("root") true [.file ("a.txt")]) ("/root") rfl
     (Line.mk ("") ("└── ") ("a.txt") false 1 .entry) (by decide) rfl (by decide)⟩

/-- C1 counterexample: with `max_depth = 1` the claim says a directory at
exactly depth 1 is itself listed with its children suppressed; in fact the
depth guard runs before the directory prints its own name, so the
subdirectory `sub` of the root produces no line at all — the output is just
the root line. -/
theorem claim_C1_counterexample :
    generateTree ⟨true, some 1, []⟩ (.dir ("root") true [.dir ("sub") true []]) "/root" =
      [⟨"", "", "root", true, 0, .entry⟩] ∧
    (generateTree ⟨true, some 1, []⟩ (.dir ("root") true [.dir ("sub") true []]) "/root").all
      (fun l => !(l.name == "sub")) = true :=
  ⟨by decide, by decide⟩

/-- C1 (amended, corrected): with `max_depth = N` no rendered line denotes an
entry at traversal depth greater than `N`, and every *directory* name line
denotes an entry at depth strictly below `N` — a directory at exactly depth
`N` is not listed at all (the guard suppresses its own name line together
with its children), while file entries at depth `N` are still listed. -/
theorem claim_C1 (cfg : Config) (e : Entry) (path : String) (N : Int)
    (hN : cfg.max_depth = some N) :
    ∀ l ∈ generateTree cfg e path,
      (l.depth : Int) ≤ N ∧ (l.is_dir = true → (l.depth : Int) < N) := by
  intro l hl
  exact mem_depth_le_max cfg hN e.fuel e path ("") true 0 l hl

/-- C1 witness: the root line of a depth-limited concrete run satisfies the
depth bounds. -/
theorem claim_C1_witness :
    (((Line.mk ("") ("") ("root") true 0 .entry).depth : Int) ≤ 1) ∧
    ((Line.mk ("") ("") ("root") true 0 .entry).is_dir = true →
      (((Line.mk ("") ("") ("root") true 0 .entry).depth : Int) < 1)) :=
  claim_C1 ⟨true, some 1, []⟩ (.dir ("root") true [.file ("a.txt")]) ("/root") 1 rfl
    (Line.mk ("") ("") ("root") true 0 .entry) (by decide)

/-- C10 (confirmed): with `max_depth` set to zero or any negative integer the
walker emits nothing at all — the depth guard fires at the root call before
any printing — and the CLI parse of a negative `--depth` value succeeds
(reporting no configuration error). -/
theorem claim_C10 (cfg : Config) (e : Entry) (path : String) (d : Int)
    (hd : cfg.max_depth = some d) (hle : d ≤ 0) :
    generateTree cfg e path = [] ∧ parse_depth_arg ("--depth=-1") = some (-1) := by
  constructor
  · have hcut : cutoff cfg 0 = true := by
      simp only [cutoff, hd, ge_iff_le, decide_eq_true_eq, Nat.cast_zero]
      omega
    exact generate_tree_cutoff hcut e.fuel e path ("") true
  · decide

/-- C10 witness: a concrete run with `--depth=-1` semantics produces no
output. -/
theorem claim_C10_witness :
    generateTree ⟨false, some (-1), []⟩ (.dir ("root") true [.file ("a.txt")]) ("/root") = [] ∧
    parse_depth_arg ("--depth=-1") = some (-1) :=
  claim_C10 ⟨false, some (-1), []⟩ (.dir ("root") true [.file ("a.txt")]) ("/root") (-1) rfl
    (by decide)

/-- C4 (confirmed): the children of a visited directory are listed, then
filtered by the matcher, then stably sorted with `is_file` as primary key
(directories before files) and the lowered name as secondary key, and the
last-item flag is computed over that filtered, sorted list — so an ignored
entry never affects the rendered output of its siblings (neither their
ordering nor the last-item determination): removing it from the directory
listing changes nothing.  The processed child list is sorted with respect to
the key order and is a permutation of the filtered listing. -/
theorem claim_C4 (cfg : Config) (path n : String) (acc : Bool)
    (l1 l2 : List Entry) (x : Entry)
    (hx : should_ignore cfg.show_hidden cfg.ignore_patterns x.name
      (path ++ "/" ++ x.name) = true) :
    generateTree cfg (.dir n acc (l1 ++ x :: l2)) path =
      generateTree cfg (.dir n acc (l1 ++ l2)) path ∧
    processChildren cfg path (l1 ++ x :: l2) = processChildren cfg path (l1 ++ l2) ∧
    List.Pairwise childOrd (processChildren cfg path (l1 ++ l2)) ∧
    List.Perm (processChildren cfg path (l1 ++ l2))
      ((l1 ++ l2).filter (fun c =>
        !(should_ignore cfg.show_hidden cfg.ignore_patterns c.name
          (path ++ "/" ++ c.name)))) := by
  have hfilter :
      (l1 ++ x :: l2).filter (fun c =>
        !(should_ignore cfg.show_hidden cfg.ignore_patterns c.name
          (path ++ "/" ++ c.name))) =
      (l1 ++ l2).filter (fun c =>
        !(should_ignore cfg.show_hidden cfg.ignore_patterns c.name
          (path ++ "/" ++ c.name))) := by
    simp [List.filter_append, List.filter_cons, hx]
  have hpc : processChildren cfg path (l1 ++ x :: l2) = processChildren cfg path (l1 ++ l2) := by
    unfold processChildren
    rw [hfilter]
  have hsame : ∀ f, generate_tree cfg f (.dir n acc (l1 ++ x :: l2)) path ("") true 0 =
      generate_tree cfg f (.dir n acc (l1 ++ l2)) path ("") true 0 := by
    intro f
    cases f with
    | zero => rfl
    | succ f =>
      by_cases hcut : cutoff cfg 0 = true
      · rw [generate_tree_cutoff hcut, generate_tree_cutoff hcut]
      · have hcut' : cutoff cfg 0 = false := by simpa using hcut
        cases acc with
        | false => rw [generate_tree_dir_inacc hcut', generate_tree_dir_inacc hcut']
        | true => rw [generate_tree_dir_acc hcut', generate_tree_dir_acc hcut', hpc]
  refine ⟨?_, hpc, ?_, ?_⟩
  · unfold generateTree
    have hf1 : (Entry.dir n acc (l1 ++ x :: l2)).fuel ≤
        max (Entry.dir n acc (l1 ++ x :: l2)).fuel (Entry.dir n acc (l1 ++ l2)).fuel :=
      Nat.le_max_left _ _
    have hf2 : (Entry.dir n acc (l1 ++ l2)).fuel ≤
        max (Entry.dir n acc (l1 ++ x :: l2)).fuel (Entry.dir n acc (l1 ++ l2)).fuel :=
      Nat.le_max_right _ _
    calc generate_tree cfg (Entry.dir n acc (l1 ++ x :: l2)).fuel
          (.dir n acc (l1 ++ x :: l2)) path ("") true 0
        = generate_tree cfg
            (max (Entry.dir n acc (l1 ++ x :: l2)).fuel (Entry.dir n acc (l1 ++ l2)).fuel)
            (.dir n acc (l1 ++ x :: l2)) path ("") true 0 :=
          generate_tree_fuel_congr cfg _ _ _ _ _ _ _ (Nat.le_refl _) hf1
      _ = generate_tree cfg
            (max (Entry.dir n acc (l1 ++ x :: l2)).fuel (Entry.dir n acc (l1 ++ l2)).fuel)
            (.dir n acc (l1 ++ l2)) path ("") true 0 := hsame _
      _ = generate_tree cfg (Entry.dir n acc (l1 ++ l2)).fuel
            (.dir n acc (l1 ++ l2)) path ("") true 0 :=
          generate_tree_fuel_congr cfg _ _ _ _ _ _ _ hf2 (Nat.le_refl _)
  · exact List.sorted_insertionSort childOrd _
  · exact List.perm_insertionSort childOrd _

/-- C4 witness: removing a concretely ignored entry (`a.log` under rule
`*.log`) leaves the rendered output of the directory unchanged. -/
theorem claim_C4_witness :
    generateTree ⟨false, none, ["*.log"]⟩
        (.dir ("r") true [.file ("b.txt"), .file ("a.log"), .dir ("c") true []]) "/r" =
      generateTree ⟨false, none, ["*.log"]⟩
        (.dir ("r") true [.file ("b.txt"), .dir ("c") true []]) "/r" :=
  (claim_C4 ⟨false, none, ["*.log"]⟩ ("/r") ("r") true [.file ("b.txt")] [.dir ("c") true []]
    (.file ("a.log")) (by decide)).1

/-- C8 (confirmed): when listing a directory fails with a permission error,
the walker emits the directory name line followed by exactly one
`[Permission Denied]` line — built with the already-extended prefix and the
same connector logic as a regular entry — terminates only that branch (the
output of the entry is exactly those two lines; being a total function, the
model raises nothing), and the remaining siblings at the parent level are
still rendered: in the parent child loop the inaccessible directory
contributes its two lines and the loop continues with the rest. -/
theorem claim_C8 (cfg : Config) (f : Nat) (n path pfx cp : String)
    (cs : List Entry) (il : Bool) (d : Nat)
    (h1 : cutoff cfg d = false) (h2 : cutoff cfg (d + 1) = false) :
    (generate_tree cfg (f + 1) (.dir n false cs) path pfx il d =
      [selfLine pfx il d n, pdLine (extendPfx pfx il d) il (d + 1)]) ∧
    (((generate_tree cfg (f + 1) (.dir n false cs) path pfx il d).filter
        (fun l => l.kind == .permDenied)).length = 1) ∧
    (∀ rest : List Entry,
      processList (walkChild cfg (f + 1) path cp d) (.dir n false cs :: rest) =
        [selfLine cp rest.isEmpty (d + 1) n,
          pdLine (extendPfx cp rest.isEmpty (d + 1)) rest.isEmpty (d + 1 + 1)] ++
          processList (walkChild cfg (f + 1) path cp d) rest) := by
  refine ⟨generate_tree_dir_inacc h1 f n cs path pfx il, ?_, ?_⟩
  · rw [generate_tree_dir_inacc h1]
    have hk : ((selfLine pfx il d n).kind == LineKind.permDenied) = false := by
      rw [selfLine_kind]
      rfl
    simp [List.filter, hk, pdLine]
  · intro rest
    simp only [processList]
    have hw : walkChild cfg (f + 1) path cp d (Entry.dir n false cs) rest.isEmpty =
        [selfLine cp rest.isEmpty (d + 1) n,
          pdLine (extendPfx cp rest.isEmpty (d + 1)) rest.isEmpty (d + 1 + 1)] := by
      simp only [walkChild, Entry.name]
      exact generate_tree_dir_inacc h2 f n cs _ cp rest.isEmpty
    rw [hw]

/-- C8 witness: a concrete inaccessible subdirectory (at depth 1, not the
last sibling) renders exactly its name line and one permission-denied
line. -/
theorem claim_C8_witness :
    generate_tree ⟨false, none, []⟩ 1 (.dir ("locked") false [.file ("x")])
        ("/r/locked") ("") false 1 =
      [selfLine ("") false 1 ("locked"), pdLine (extendPfx ("") false 1) false 2] :=
  (claim_C8 ⟨false, none, []⟩ 0 ("locked") ("/r/locked") ("") ("") [.file ("x")]
    false 1 rfl rfl).1

/-- C9 (confirmed): `load_ignore_file` examines the file line by line, trims
surrounding whitespace, skips lines that are empty after trimming or whose
trimmed form starts with `#`, and adds every other trimmed line verbatim as
one pattern (membership characterisation below); a missing file adds no
patterns (and, the source swallowing `FileNotFoundError`, the run
continues). -/
theorem claim_C9 (pats : List String) (c : String) (p : String) :
    (p ∈ load_ignore_file pats (.found c) ↔
      p ∈ pats ∨
        ∃ l ∈ splitOnChar '\n' c.data,
          stripChars l ≠ [] ∧ firstCharIs '#' (stripChars l) = false ∧
            p = String.mk (stripChars l)) ∧
    load_ignore_file pats .missing = pats := by
  constructor
  · constructor
    · intro hp
      rcases List.mem_append.mp hp with hp | hp
      · exact Or.inl hp
      · right
        rcases List.mem_map.mp hp with ⟨a, ha, hmk⟩
        rcases List.mem_filter.mp ha with ⟨ha2, hpred⟩
        rcases List.mem_map.mp ha2 with ⟨l, hlmem, hstrip⟩
        rw [Bool.and_eq_true, Bool.not_eq_true', Bool.not_eq_true'] at hpred
        refine ⟨l, hlmem, ?_, ?_, ?_⟩
        · rw [hstrip]
          intro hnil
          rw [hnil] at hpred
          simp at hpred
        · rw [hstrip]
          exact hpred.2
        · rw [hstrip, hmk]
    · rintro (hp | ⟨l, hlmem, hne, hhash, rfl⟩)
      · exact List.mem_append.mpr (Or.inl hp)
      · refine List.mem_append.mpr (Or.inr ?_)
        refine List.mem_map.mpr ⟨stripChars l, ?_, rfl⟩
        refine List.mem_filter.mpr ⟨List.mem_map.mpr ⟨l, hlmem, rfl⟩, ?_⟩
        rw [Bool.and_eq_true, Bool.not_eq_true', Bool.not_eq_true']
        refine ⟨?_, hhash⟩
        cases hEmp : (stripChars l).isEmpty with
        | false => rfl
        | true =>
          rw [List.isEmpty_iff] at hEmp
          exact absurd hEmp hne
  · rfl

set_option maxRecDepth 100000 in
/-- C5 counterexample: the round-trip claim requires every default pattern to
appear as a template line, but `.yarn` is a default pattern and is not among
the patterns loaded back from the template ignore file. -/
theorem claim_C5_counterexample :
    ".yarn" ∈ ignore_pattrens.DEFAULT_IGNORE_PATTERNS ∧
    ".yarn" ∉ load_ignore_file [] (.found ignore_content) :=
  ⟨by decide, by decide⟩

set_option maxRecDepth 100000 in
/-- C5 (amended, corrected): loading the template written by
`create_default_ignore_file` yields patterns every one of which belongs to
the documented default pattern list, but the loaded set is a strict subset:
default patterns such as `.yarn` do not appear as template lines. -/
theorem claim_C5 :
    (load_ignore_file [] (.found ignore_content)).all
        (fun p => ignore_pattrens.DEFAULT_IGNORE_PATTERNS.contains p) = true ∧
    ignore_pattrens.DEFAULT_IGNORE_PATTERNS.contains (".yarn") = true ∧
    (load_ignore_file [] (.found ignore_content)).contains (".yarn") = false :=
  ⟨by decide, by decide, by decide⟩

set_option maxRecDepth 100000 in
/-- C6 (code bug): the pattern catalog module defines the aggressive set
exactly as the claim states — the default set plus exactly the four extras
`*.min.js`, `*.min.css`, `*.map`, `public/assets`, none of which is already
a default pattern — but `dirtree.py` imports the module under the name
`ignore_patterns` while the file is named `ignore_pattrens.py`, so that
failing import makes the fallback bind `AGGRESSIVE_PATTERNS` to the basic
default set: selecting the aggressive mode at runtime adds none of the
extras, and `app.min.js` is not ignored. -/
theorem claim_C6 :
    ignore_pattrens.AGGRESSIVE_PATTERNS =
      ignore_pattrens.DEFAULT_IGNORE_PATTERNS ++
        ["*.min.js", "*.min.css", "*.map", "public/assets"] ∧
    (["*.min.js", "*.min.css", "*.map", "public/assets"].all
      (fun p => !(ignore_pattrens.DEFAULT_IGNORE_PATTERNS.contains p))) = true ∧
    fallback.AGGRESSIVE_PATTERNS = fallback.DEFAULT_IGNORE_PATTERNS ∧
    should_ignore false fallback.AGGRESSIVE_PATTERNS ("app.min.js")
      ("/proj/app.min.js") = false ∧
    should_ignore false ignore_pattrens.AGGRESSIVE_PATTERNS ("app.min.js")
      ("/proj/app.min.js") = true :=
  ⟨rfl, by decide, rfl, by decide, by decide⟩

lemma mem_category_fold (p : String) :
    ∀ (cats : List String) (init : List String),
      (p ∈ cats.foldl
          (fun acc cat =>
            match ignore_pattrens.category_map cat with
            | some ps => acc ++ ps
            | none => acc)
          init ↔
        p ∈ init ∨ ∃ c ∈ cats, ∃ ps,
          ignore_pattrens.category_map c = some ps ∧ p ∈ ps) := by
  intro cats
  induction cats with
  | nil =>
    intro init
    simp
  | cons c cs ih =>
    intro init
    simp only [List.foldl_cons]
    cases hm : ignore_pattrens.category_map c with
    | none =>
      simp only [hm]
      rw [ih init]
      constructor
      · rintro (h | ⟨x, hx, ps, hps, hp⟩)
        · exact Or.inl h
        · exact Or.inr ⟨x, List.mem_cons_of_mem c hx, ps, hps, hp⟩
      · rintro (h | ⟨x, hx, ps, hps, hp⟩)
        · exact Or.inl h
        · rcases List.mem_cons.mp hx with rfl | hx2
          · rw [hm] at hps
            cases hps
          · exact Or.inr ⟨x, hx2, ps, hps, hp⟩
    | some ps0 =>
      simp only [hm]
      rw [ih (init ++ ps0)]
      rw [List.mem_append]
      constructor
      · rintro ((h | h) | ⟨x, hx, ps, hps, hp⟩)
        · exact Or.inl h
        · exact Or.inr ⟨c, List.mem_cons_self c cs, ps0, hm, h⟩
        · exact Or.inr ⟨x, List.mem_cons_of_mem c hx, ps, hps, hp⟩
      · rintro (h | ⟨x, hx, ps, hps, hp⟩)
        · exact Or.inl (Or.inl h)
        · rcases List.mem_cons.mp hx with rfl | hx2
          · rw [hm] at hps
            rw [Option.some.injEq] at hps
            subst hps
            exact Or.inl (Or.inr hp)
          · exact Or.inr ⟨x, hx2, ps, hps, hp⟩

/-- C7 (confirmed): the category lookup of the pattern catalog returns, for
any nonempty key list, exactly the union of the category sets of the
recognised keys (membership characterisation; unrecognised keys contribute
nothing and raise nothing), and the full default pattern set for an empty or
absent input. -/
theorem claim_C7 :
    (∀ (cats : List String) (p : String), cats ≠ [] →
      (p ∈ ignore_pattrens.get_patterns_by_category (some cats) ↔
        ∃ c ∈ cats, ∃ ps,
          ignore_pattrens.category_map c = some ps ∧ p ∈ ps)) ∧
    ignore_pattrens.get_patterns_by_category none =
      ignore_pattrens.DEFAULT_IGNORE_PATTERNS ∧
    ignore_pattrens.get_patterns_by_category (some []) =
      ignore_pattrens.DEFAULT_IGNORE_PATTERNS := by
  refine ⟨?_, rfl, rfl⟩
  intro cats p hne
  cases cats with
  | nil => exact absurd rfl hne
  | cons c cs =>
    simp only [ignore_pattrens.get_patterns_by_category]
    rw [mem_category_fold p (c :: cs) []]
    simp

/-- C7 witness: at the concrete key list `["vcs"]` the lookup contains
`.svn` iff some recognised category of the list contains it. -/
theorem claim_C7_witness :
    ".svn" ∈ ignore_pattrens.get_patterns_by_category (some ["vcs"]) ↔
      ∃ c ∈ (["vcs"] : List String), ∃ ps,
        ignore_pattrens.category_map c = some ps ∧ ".svn" ∈ ps :=
  claim_C7.1 (["vcs"]) (".svn") (by decide)

end Dirtree
